import Mathlib

/-!
Verification development for the `orbit-sqlite` relational mapping and
migration engine (`src/sqlite-cache.ts`).  The definitions below are a
shallow embedding of the TypeScript source: per-type record tables hold
rows `(id, attributes, keys)`, a shared edge table `__RELATIONSHIPS__`
holds relationship rows, and the cache operations (`_setRecord`,
`_parseRecordFromDb`, `_getRelationshipsForRecord`,
`addInverseRelationshipsAsync`, ...) are translated statement by
statement.  SQL transactions are modelled as all-or-nothing state
updates (`Except` failure leaves the state unchanged), and the composite
primary key of the edge table is modelled with SQLite's NULL semantics
(rows containing NULL never conflict).
-/

namespace OrbitSqlite

/-! ## Constants (from the head of sqlite-cache.ts) -/

def VERSION_TABLE_NAME : String := "__VERSION__"

def INTERNAL_VERSION_TABLE_NAME : String := "__RN_ORBIT_SQLITE_VERSION__"

def RELATIONSHIPS_TABLE_NAME : String := "__RELATIONSHIPS__"

def ID_FIELD_NAME : String := "id"

def ATTRIBUTES_FIELD_NAME : String := "attributes"

def KEYS_FIELD_NAME : String := "keys"

/-- `export const VERSION = 2` — the engine's internal format version. -/
def VERSION : Nat := 2

/-! ## Logical record model (from `@orbit/data`) -/

/-- `RecordIdentity`: `{ type, id }`. -/
structure RecId where
  type : String
  id : String
deriving DecidableEq, Repr

/-- An opaque attribute scalar (string / number / boolean), never
inspected by the engine. -/
inductive AttrVal where
  | str (v : String)
  | num (v : Int)
  | boolean (v : Bool)
deriving DecidableEq, Repr

/-- An attributes / keys map, JSON-object style (insertion ordered). -/
abbrev AttrMap := List (String × AttrVal)

/-- The `data` field of a `RecordRelationship`: a single optional
identity (hasOne, `none` = JSON null) or an array (hasMany). -/
inductive RelData where
  | one (t : Option RecId)
  | many (l : List RecId)
deriving DecidableEq, Repr

/-- A `RecordRelationship` entry; `none` models `data === undefined`. -/
abbrev RecordRel := Option RelData

/-- An orbit `Record`; `none` on `attributes`/`keys`/`relationships`
models the field being `undefined`. -/
structure Rec where
  type : String
  id : String
  attributes : Option AttrMap
  keys : Option AttrMap
  relationships : Option (List (String × RecordRel))
deriving DecidableEq, Repr

/-! ## Schema registry (from `@orbit/data` Schema, as consumed here) -/

inductive RelKind where
  | hasOne
  | hasMany
deriving DecidableEq, Repr

/-- A `RelationshipDefinition` as consumed: cardinality and target model. -/
structure RelDef where
  kind : RelKind
  model : String
deriving DecidableEq, Repr

/-- A model definition: the engine only consults `relationships`. -/
structure ModelDef where
  relationships : Option (List (String × RelDef))
deriving DecidableEq, Repr

structure DbSchema where
  models : List (String × ModelDef)
deriving DecidableEq, Repr

def DbSchema.getModel (s : DbSchema) (t : String) : Option ModelDef :=
  s.models.lookup t

/-! ## Physical layer: cells, rows, edge table -/

/-- The text stored in an `attributes`/`keys` column: either the result
of `JSON.stringify` on a map, the literal text `null`, or malformed
garbage (indexed by a code) that `JSON.parse` rejects. -/
inductive StoredText where
  | json (m : AttrMap)
  | jsonNull
  | malformed (code : Nat)
deriving DecidableEq, Repr

/-- A nullable TEXT column value. -/
inductive Cell where
  | null
  | text (t : StoredText)
deriving DecidableEq, Repr

/-- `JSON.parse` on a cell's contents: throws (`Except.error`) on
malformed text, returns JS `null` (modelled `none`) for SQL NULL input
and for the text `null`, and the decoded map otherwise.
(`JSON.parse(null)` coerces to the string `"null"` and succeeds.) -/
def jsonParseCell : Cell → Except Unit (Option AttrMap)
  | Cell.null => Except.ok none
  | Cell.text (StoredText.json m) => Except.ok (some m)
  | Cell.text StoredText.jsonNull => Except.ok none
  | Cell.text (StoredText.malformed _) => Except.error ()

/-- A row of a per-type record table: `id TEXT PRIMARY KEY,
attributes TEXT, keys TEXT`. -/
structure RecordRow where
  id : String
  attributes : Cell
  keys : Cell
deriving DecidableEq, Repr

/-- A row of the shared `__RELATIONSHIPS__` table. -/
structure EdgeRow where
  source_id : String
  source_table : String
  relation_name : String
  target_id : Option String
  target_table : Option String
deriving DecidableEq, Repr

/-- Whether inserting `e` conflicts with the existing row `x` under the
table's five-column composite PRIMARY KEY.  Per SQLite semantics, a NULL
component never equals anything, so rows with NULL targets never
conflict. -/
def edgeConflicts (e x : EdgeRow) : Bool :=
  x.source_id = e.source_id && x.source_table = e.source_table &&
  x.relation_name = e.relation_name &&
  x.target_id = e.target_id && e.target_id.isSome &&
  x.target_table = e.target_table && e.target_table.isSome

/-- `INSERT INTO __RELATIONSHIPS__ VALUES (...)`: fails on a primary-key
conflict, otherwise appends the row. -/
def insertEdge (e : EdgeRow) (tbl : List EdgeRow) :
    Except Unit (List EdgeRow) :=
  if tbl.any (edgeConflicts e) then Except.error ()
  else Except.ok (tbl ++ [e])

/-- Whether an edge row has source `(id, type)` — the condition of
`WHERE source_id=? AND source_table=?`. -/
def edgeHasSource (id type : String) (e : EdgeRow) : Bool :=
  e.source_id = id && e.source_table = type

/-- Full database state visible to the record-level operations: one
record table per type name and the shared edge table. -/
structure DBState where
  tables : String → List RecordRow
  edges : List EdgeRow

def DBState.setTable (st : DBState) (t : String) (rows : List RecordRow) :
    DBState :=
  { st with tables := fun n => if n = t then rows else st.tables n }

/-! ## `_setRecord` (sqlite-cache.ts lines 415–493) -/

/-- The edge inserts performed for one `relationships` entry of
`_setRecord`: hasMany data inserts one row per identity, hasOne data
inserts a single row, and explicit `data: null` inserts a row with NULL
`target_id`/`target_table`.  `data === undefined` is skipped. -/
def insertRelEntry (id type name : String) (rr : RecordRel)
    (tbl : List EdgeRow) : Except Unit (List EdgeRow) :=
  match rr with
  | none => Except.ok tbl
  | some (RelData.many l) =>
      l.foldlM (fun acc rel =>
        insertEdge ⟨id, type, name, some rel.id, some rel.type⟩ acc) tbl
  | some (RelData.one (some rel)) =>
      insertEdge ⟨id, type, name, some rel.id, some rel.type⟩ tbl
  | some (RelData.one none) =>
      insertEdge ⟨id, type, name, none, none⟩ tbl

/-- The record-table row written by the INSERT branch: columns absent
from the column list are left NULL. -/
def insertedRow (r : Rec) : RecordRow :=
  { id := r.id
    attributes :=
      match r.attributes with
      | some m => Cell.text (StoredText.json m)
      | none => Cell.null
    keys :=
      match r.keys with
      | some m => Cell.text (StoredText.json m)
      | none => Cell.null }

/-- The UPDATE branch rewrites only the columns present in `kv`:
`attributes` when `record.attributes !== undefined`, `keys` when
`record.keys` is truthy. -/
def updatedRow (r : Rec) (old : RecordRow) : RecordRow :=
  { old with
    attributes :=
      match r.attributes with
      | some m => Cell.text (StoredText.json m)
      | none => old.attributes
    keys :=
      match r.keys with
      | some m => Cell.text (StoredText.json m)
      | none => old.keys }

/-- `_setRecord` as a transaction body: write the record row (INSERT or
partial UPDATE), unconditionally delete every edge whose source is the
record, then insert one edge per defined relationship entry.  A failed
statement fails the whole transaction. -/
def setRecordTx (r : Rec) (shouldInsert : Bool) (st : DBState) :
    Except Unit DBState :=
  let tbl := st.tables r.type
  let tblRes : Except Unit (List RecordRow) :=
    if shouldInsert then
      if tbl.any (fun row => row.id = r.id) then Except.error ()
      else Except.ok (tbl ++ [insertedRow r])
    else if r.attributes.isSome || r.keys.isSome then
      Except.ok (tbl.map (fun row =>
        if row.id = r.id then updatedRow r row else row))
    else Except.ok tbl
  match tblRes with
  | Except.error e => Except.error e
  | Except.ok tbl' =>
    let edges0 :=
      st.edges.filter (fun e => !(edgeHasSource r.id r.type e))
    let edgesRes : Except Unit (List EdgeRow) :=
      match r.relationships with
      | none => Except.ok edges0
      | some entries =>
          entries.foldlM (fun acc nr =>
            insertRelEntry r.id r.type nr.1 nr.2 acc) edges0
    match edgesRes with
    | Except.error e => Except.error e
    | Except.ok edges' =>
        Except.ok { (st.setTable r.type tbl') with edges := edges' }

/-- `setRecordAsync`: probe for the row's existence, then run
`_setRecord` in one transaction (rolled back entirely on failure). -/
def setRecordAsync (r : Rec) (st : DBState) : Except Unit DBState :=
  let shouldInsert := !((st.tables r.type).any (fun row => row.id = r.id))
  setRecordTx r shouldInsert st

/-! ## Relationship read-back (lines 495–530) and record decode -/

/-- The JS object `{ type: result.target_table, id: result.target_id }`
built from an edge row; either component may be `null`. -/
structure DbIdent where
  type : Option String
  id : Option String
deriving DecidableEq, Repr

def edgeTargetIdent (e : EdgeRow) : DbIdent :=
  { type := e.target_table, id := e.target_id }

def RecId.toDb (t : RecId) : DbIdent :=
  { type := some t.type, id := some t.id }

/-- A relationship value as decoded from the database. -/
inductive ReadRelData where
  | one (t : Option DbIdent)
  | many (l : List DbIdent)
deriving DecidableEq, Repr

/-- `_getRelationshipsForRecord`: select all edges whose source is the
record, then for each relationship declared on the record's model (in
declaration order) keep the matching targets; a non-empty list is
reshaped by the declared cardinality, with a NULL first target id on a
non-hasMany relationship read as `data: null`. -/
def getRelationshipsForRecord (s : DbSchema) (type id : String)
    (edges : List EdgeRow) : List (String × ReadRelData) :=
  match s.getModel type with
  | none => []
  | some m =>
    match m.relationships with
    | none => []
    | some rels =>
      let results := edges.filter (edgeHasSource id type)
      rels.filterMap (fun nd =>
        let data := (results.filter
          (fun e => e.relation_name = nd.1)).map edgeTargetIdent
        if data.isEmpty then none
        else if nd.2.kind = RelKind.hasMany then
          some (nd.1, ReadRelData.many data)
        else
          match data.head? with
          | some d =>
              if d.id = none then some (nd.1, ReadRelData.one none)
              else some (nd.1, ReadRelData.one (some d))
          | none => none)

/-- A record as decoded by `_parseRecordFromDb`. -/
structure ReadRec where
  type : String
  id : String
  attributes : Option AttrMap
  keys : Option AttrMap
  relationships : Option (List (String × ReadRelData))
deriving DecidableEq, Repr

/-- The decoded `attributes`/`keys` field: start from `{}`, attempt
`JSON.parse` under try/catch (a throw keeps `{}`), and attach the field
only if the result is a non-null object with at least one key. -/
def decodeField (c : Cell) : Option AttrMap :=
  match jsonParseCell c with
  | Except.ok (some m) => if m.isEmpty then none else some m
  | Except.ok none => none
  | Except.error _ => none

/-- `_parseRecordFromDb`: decode both blob fields defensively, read the
relationships, and attach each part only when non-empty. -/
def parseRecordFromDb (s : DbSchema) (input : RecordRow) (type : String)
    (edges : List EdgeRow) : ReadRec :=
  let rels := getRelationshipsForRecord s type input.id edges
  { type := type
    id := input.id
    attributes := decodeField input.attributes
    keys := decodeField input.keys
    relationships := if rels.isEmpty then none else some rels }

/-- `getRecordAsync`: select the rows with the given id; decode exactly
when the result set has exactly one row. -/
def getRecordAsync (s : DbSchema) (ident : RecId) (st : DBState) :
    Option ReadRec :=
  match (st.tables ident.type).filter (fun row => row.id = ident.id) with
  | [row] => some (parseRecordFromDb s row ident.type st.edges)
  | _ => none

/-! ## Record removal (lines 582–598) -/

/-- `_removeRecord`: `DELETE FROM '<type>' WHERE id=?` — and nothing
else; the edge table is not touched. -/
def removeRecordTx (ident : RecId) (st : DBState) : DBState :=
  st.setTable ident.type
    ((st.tables ident.type).filter (fun row => !(row.id = ident.id)))

/-- `removeRecordAsync` (the state effect; the prior record returned to
the caller does not change the state). -/
def removeRecordAsync (ident : RecId) (st : DBState) : DBState :=
  removeRecordTx ident st

/-! ## Inverse-relationship bulk edge operations (lines 643–682) -/

/-- A `RecordRelationshipIdentity`. -/
structure RelIdent where
  record : RecId
  relationship : String
  relatedRecord : RecId
deriving DecidableEq, Repr

/-- The edge row inserted by `addInverseRelationshipsAsync` for one
entry: source is the *related* record, target is the record. -/
def inverseEdge (ri : RelIdent) : EdgeRow :=
  { source_id := ri.relatedRecord.id
    source_table := ri.relatedRecord.type
    relation_name := ri.relationship
    target_id := some ri.record.id
    target_table := some ri.record.type }

/-- `addInverseRelationshipsAsync`: empty input returns immediately;
otherwise all inserts run in one transaction (all-or-nothing). -/
def addInverseRelationshipsAsync (rels : List RelIdent)
    (st : DBState) : Except Unit DBState :=
  if rels.isEmpty then Except.ok st
  else
    match rels.foldlM (fun acc ri => insertEdge (inverseEdge ri) acc)
        st.edges with
    | Except.ok edges' => Except.ok { st with edges := edges' }
    | Except.error e => Except.error e

/-- Whether an edge row matches the five-way equality of the DELETE in
`removeInverseRelationshipsAsync` (all parameters are non-null strings,
so NULL target columns never match). -/
def matchesInverse (ri : RelIdent) (e : EdgeRow) : Bool :=
  e.source_id = ri.relatedRecord.id &&
  e.source_table = ri.relatedRecord.type &&
  e.relation_name = ri.relationship &&
  e.target_id = some ri.record.id &&
  e.target_table = some ri.record.type

/-- `removeInverseRelationshipsAsync`: empty input returns immediately;
otherwise one DELETE per entry, in one transaction.  A DELETE matching
nothing is not an error. -/
def removeInverseRelationshipsAsync (rels : List RelIdent)
    (st : DBState) : DBState :=
  if rels.isEmpty then st
  else
    { st with
      edges := rels.foldl (fun es ri =>
        es.filter (fun e => !(matchesInverse ri e))) st.edges }

/-! ## DDL / migration statement model (createDB, _migrateDBInternalTo1,
_migrateDBInternalTo2, _migrateDBInternalFrom, setVersion,
_setInternalVersion) -/

/-- A row of some table, as seen by the statement interpreter. -/
inductive AbsRow where
  | version (v : Nat)
  | record (row : RecordRow)
  | edge (e : EdgeRow)
deriving DecidableEq, Repr

/-- The SQL statements issued inside the creation / migration
transactions, reified.  `createTable` carries the column list (name and
type text) and the PRIMARY KEY column list. -/
inductive SqlStmt where
  | createTable (name : String) (cols : List (String × String))
      (pk : List String)
  | dropTable (name : String)
  | deleteAll (name : String)
  | insertRow (name : String) (row : AbsRow)
deriving DecidableEq, Repr

/-- The table a statement addresses. -/
def SqlStmt.table : SqlStmt → String
  | SqlStmt.createTable n _ _ => n
  | SqlStmt.dropTable n => n
  | SqlStmt.deleteAll n => n
  | SqlStmt.insertRow n _ => n

/-- Physical store for the statement interpreter: `none` = the table
does not exist. -/
abbrev TableState := String → Option (List AbsRow)

def applyStmt (st : TableState) : SqlStmt → TableState
  | SqlStmt.createTable n _ _ => fun m => if m = n then some [] else st m
  | SqlStmt.dropTable n => fun m => if m = n then none else st m
  | SqlStmt.deleteAll n =>
      fun m => if m = n then (st m).map (fun _ => []) else st m
  | SqlStmt.insertRow n r =>
      fun m => if m = n then (st m).map (fun rows => rows ++ [r]) else st m

/-- One `db.transaction` over a statement list, all-or-nothing: a failed
transaction rolls back entirely and leaves the state untouched. -/
def runTxStmts (ok : Bool) (stmts : List SqlStmt) (st : TableState) :
    TableState :=
  if ok then stmts.foldl applyStmt st else st

/-- `_createModelTable`: `id TEXT NOT NULL PRIMARY KEY, attributes TEXT,
keys TEXT`. -/
def createModelTableStmt (type : String) : SqlStmt :=
  SqlStmt.createTable type
    [(ID_FIELD_NAME, "TEXT NOT NULL PRIMARY KEY"),
     (ATTRIBUTES_FIELD_NAME, "TEXT"),
     (KEYS_FIELD_NAME, "TEXT")] []

/-- `_createRelationshipTables`: the shared edge table with its
five-column composite primary key. -/
def createRelationshipTablesStmt : SqlStmt :=
  SqlStmt.createTable RELATIONSHIPS_TABLE_NAME
    [("source_id", "TEXT NOT NULL"),
     ("source_table", "TEXT NOT NULL"),
     ("relation_name", "TEXT NOT NULL"),
     ("target_id", "TEXT"),
     ("target_table", "TEXT")]
    ["source_id", "source_table", "relation_name", "target_id",
     "target_table"]

/-- `setVersion`: DELETE all rows of `__VERSION__`, INSERT the new one. -/
def setVersionStmts (version : Nat) : List SqlStmt :=
  [SqlStmt.deleteAll VERSION_TABLE_NAME,
   SqlStmt.insertRow VERSION_TABLE_NAME (AbsRow.version version)]

/-- `_setInternalVersion`: DELETE all rows of the internal version
table, INSERT the new one. -/
def setInternalVersionStmts (version : Nat) : List SqlStmt :=
  [SqlStmt.deleteAll INTERNAL_VERSION_TABLE_NAME,
   SqlStmt.insertRow INTERNAL_VERSION_TABLE_NAME (AbsRow.version version)]

/-- The single transaction of `createDB`, in source order. -/
def createDBStmts (models : List String) (version : Nat) :
    List SqlStmt :=
  [SqlStmt.createTable VERSION_TABLE_NAME [("version", "NUMERIC")] []]
  ++ setVersionStmts version
  ++ [SqlStmt.createTable INTERNAL_VERSION_TABLE_NAME
        [("version", "NUMERIC")] []]
  ++ setInternalVersionStmts VERSION
  ++ [createRelationshipTablesStmt]
  ++ models.map createModelTableStmt

/-- The single transaction of `_migrateDBInternalTo1`, parameterised by
the data read (and translated) from the old layout before the
transaction begins: per model, drop and recreate the table and reinsert
the translated rows; then create the internal version table and write
version 1 — all in this one transaction. -/
def migrateTo1Stmts (existingData : List (String × List RecordRow)) :
    List SqlStmt :=
  (existingData.foldr (fun mi acc =>
    SqlStmt.dropTable mi.1 :: createModelTableStmt mi.1 ::
      (mi.2.map (fun row => SqlStmt.insertRow mi.1 (AbsRow.record row))
        ++ acc)) [])
  ++ [SqlStmt.createTable INTERNAL_VERSION_TABLE_NAME
        [("version", "NUMERIC")] []]
  ++ setInternalVersionStmts 1

/-- The single transaction of `_migrateDBInternalTo2`, parameterised by
the per-pair relationship table names found and the translated edges
read before the transaction begins: drop the old tables, create the
shared edge table, reinsert the edges, and write version 2 — all in
this one transaction. -/
def migrateTo2Stmts (tableNamesToDrop : List String)
    (relationshipsToInsert : List EdgeRow) : List SqlStmt :=
  tableNamesToDrop.map SqlStmt.dropTable
  ++ [createRelationshipTablesStmt]
  ++ relationshipsToInsert.map (fun e =>
       SqlStmt.insertRow RELATIONSHIPS_TABLE_NAME (AbsRow.edge e))
  ++ setInternalVersionStmts 2

/-- The two internal upgrade steps. -/
inductive MigStep where
  | to1
  | to2
deriving DecidableEq, Repr

/-- `_migrateDBInternalFrom`: run the step to version 1 when the stored
version is below 1, then the step to version 2 when it is below 2 —
sequential `if`s, in that order. -/
def migrateDBInternalFrom (currentInternalVersion : Nat) : List MigStep :=
  (if currentInternalVersion < 1 then [MigStep.to1] else [])
  ++ (if currentInternalVersion < 2 then [MigStep.to2] else [])

/-- The statements of one migration step. -/
def stepStmts (existingData : List (String × List RecordRow))
    (tableNamesToDrop : List String)
    (relationshipsToInsert : List EdgeRow) : MigStep → List SqlStmt
  | MigStep.to1 => migrateTo1Stmts existingData
  | MigStep.to2 => migrateTo2Stmts tableNamesToDrop relationshipsToInsert

/-- All statements run by `openDB`'s internal migration for a stored
version `v` (guard in `openDB`: migrate exactly when `v < VERSION`). -/
def migrationStmts (v : Nat)
    (existingData : List (String × List RecordRow))
    (tableNamesToDrop : List String)
    (relationshipsToInsert : List EdgeRow) : List SqlStmt :=
  if v < VERSION then
    ((migrateDBInternalFrom v).map
      (stepStmts existingData tableNamesToDrop relationshipsToInsert)).flatten
  else []

/-! ## `openDB` single-flight model (lines 97–160)

JavaScript concurrency is cooperative: code between two `await`
suspension points runs atomically.  `openDB` on a fresh store has these
atomic segments per caller:
  1. check `_db` / `_dbGenerating`; either return `_db`, register a
     `dbReady` handler, or set `_dbGenerating = true` and issue the
     single `SQLite.openDatabase` call (then suspend);
  2. on resume, assign `this._db = db` and issue the `sqlite_master`
     SELECT (then suspend);
  3. on resume, the version table is absent (fresh store), so call
     `createDB` — the one table-creation pass (then suspend on its
     transaction);
  4. on resume, clear `_dbGenerating`, trigger `dbReady`, and return
     `db`.
`EventEmitter.on` pushes each handler to the end of the handler array,
and `EventEmitter.trigger` iterates that array with `for…of` while each
invoked `openDB` handler resolves its caller with the current `this._db`
and then `off`s itself — `off` splices the handler out of the live array
at its current position, so the iterator's next index lands one past the
element that just shifted into that slot: the elements at the original
positions 0, 2, 4, … are invoked and the ones at positions 1, 3, 5, …
are skipped and stay registered.  The model interleaves `n` callers of
these segments arbitrarily. -/

inductive OpenPC where
  | start
  | waiting
  | awaitingOpen
  | awaitingCheck
  | awaitingCreate
  | done
deriving DecidableEq, Repr

/-- Global state of the lifecycle manager plus the callers: the
connection handle `db` (connections are numbered by creation order),
the `generating` flag, the registered `dbReady` waiters, instrumentation
counters for `SQLite.openDatabase` calls and `createDB` passes, each
caller's program counter and resolved value, and the connection
counter. -/
structure OpenState (n : Nat) where
  db : Option Nat
  generating : Bool
  waiters : List (Fin n)
  openCalls : Nat
  createCalls : Nat
  pc : Fin n → OpenPC
  res : Fin n → Option Nat
  nextConn : Nat

/-- The closed database, `n` callers about to invoke `openDB`. -/
def initOpen (n : Nat) : OpenState n :=
  { db := none
    generating := false
    waiters := []
    openCalls := 0
    createCalls := 0
    pc := fun _ => OpenPC.start
    res := fun _ => none
    nextConn := 0 }

/-- The handlers `EventEmitter.trigger` actually invokes when every
invoked handler splices itself out of the live array mid-iteration: the
elements at even positions of the handler list. -/
def triggerInvoked {α : Type} : List α → List α
  | [] => []
  | [a] => [a]
  | a :: _ :: rest => a :: triggerInvoked rest

/-- The handlers the same `trigger` pass skips (odd positions); they
remain registered on the emitter. -/
def triggerSkipped {α : Type} : List α → List α
  | [] => []
  | [_] => []
  | _ :: b :: rest => b :: triggerSkipped rest

/-- One atomic segment of one caller. -/
inductive OpenStep {n : Nat} : OpenState n → OpenState n → Prop where
  | retDb (i : Fin n) (c : Nat) (st : OpenState n)
      (hpc : st.pc i = OpenPC.start) (hdb : st.db = some c) :
      OpenStep st
        { st with
          pc := fun j => if j = i then OpenPC.done else st.pc j
          res := fun j => if j = i then some c else st.res j }
  | joinWait (i : Fin n) (st : OpenState n)
      (hpc : st.pc i = OpenPC.start) (hdb : st.db = none)
      (hgen : st.generating = true) :
      OpenStep st
        { st with
          pc := fun j => if j = i then OpenPC.waiting else st.pc j
          waiters := st.waiters ++ [i] }
  | beginOpen (i : Fin n) (st : OpenState n)
      (hpc : st.pc i = OpenPC.start) (hdb : st.db = none)
      (hgen : st.generating = false) :
      OpenStep st
        { st with
          generating := true
          openCalls := st.openCalls + 1
          pc := fun j => if j = i then OpenPC.awaitingOpen else st.pc j }
  | resumeOpen (i : Fin n) (st : OpenState n)
      (hpc : st.pc i = OpenPC.awaitingOpen) :
      OpenStep st
        { st with
          db := some st.nextConn
          nextConn := st.nextConn + 1
          pc := fun j => if j = i then OpenPC.awaitingCheck else st.pc j }
  | resumeCheck (i : Fin n) (st : OpenState n)
      (hpc : st.pc i = OpenPC.awaitingCheck) :
      OpenStep st
        { st with
          createCalls := st.createCalls + 1
          pc := fun j => if j = i then OpenPC.awaitingCreate else st.pc j }
  | finishOpen (i : Fin n) (st : OpenState n)
      (hpc : st.pc i = OpenPC.awaitingCreate) :
      OpenStep st
        { st with
          generating := false
          waiters := triggerSkipped st.waiters
          pc := fun j =>
            if j = i ∨ j ∈ triggerInvoked st.waiters then OpenPC.done
            else st.pc j
          res := fun j =>
            if j = i ∨ j ∈ triggerInvoked st.waiters then st.db
            else st.res j }

/-- States reachable from the closed database by interleaving the `n`
callers. -/
def OpenReachable (n : Nat) (st : OpenState n) : Prop :=
  Relation.ReflTransGen OpenStep (initOpen n) st

/-! ## Derived notions used by the round-trip statements -/

/-- The edge rows that `_setRecord` inserts for one relationships entry
(the pure value of `insertRelEntry`'s inserts). -/
def relEntryEdges (id type name : String) (rr : RecordRel) :
    List EdgeRow :=
  match rr with
  | none => []
  | some (RelData.many l) =>
      l.map (fun rel => ⟨id, type, name, some rel.id, some rel.type⟩)
  | some (RelData.one (some rel)) =>
      [⟨id, type, name, some rel.id, some rel.type⟩]
  | some (RelData.one none) => [⟨id, type, name, none, none⟩]

/-- All edge rows `_setRecord` inserts for a record's relationships. -/
def relEdges (id type : String) (entries : List (String × RecordRel)) :
    List EdgeRow :=
  entries.flatMap (fun nr => relEntryEdges id type nr.1 nr.2)

/-- A relationships entry is insertable without a primary-key conflict:
a hasMany data array has no duplicate identities. -/
def WFentry : RecordRel → Prop
  | some (RelData.many l) => l.Nodup
  | _ => True

/-- A record's relationships entry conforms to the declared schema: its
name is declared with the matching cardinality (and a hasMany array is
duplicate-free).  An entry with `data === undefined` is ignored by the
write and so is unconstrained. -/
def entryConforms (rels : List (String × RelDef))
    (nr : String × RecordRel) : Prop :=
  match nr.2 with
  | none => True
  | some (RelData.many l) =>
      (∃ d, rels.lookup nr.1 = some d ∧ d.kind = RelKind.hasMany) ∧
        l.Nodup
  | some (RelData.one _) =>
      ∃ d, rels.lookup nr.1 = some d ∧ d.kind = RelKind.hasOne

/-- Modelled from the spec's words (§8 *Round trip*, §4.4): the
cardinality reshaping a written relationship value is read back
through — a hasMany value as its list of target identities (empty list
indistinguishable from an absent relationship), a hasOne value as a
single identity or an explicit null. -/
def specReshape (rr : RecordRel) : Option ReadRelData :=
  match rr with
  | none => none
  | some (RelData.many []) => none
  | some (RelData.many l) => some (ReadRelData.many (l.map RecId.toDb))
  | some (RelData.one none) => some (ReadRelData.one none)
  | some (RelData.one (some t)) =>
      some (ReadRelData.one (some (RecId.toDb t)))

/-- The relationship value the spec expects `getRecord` to report for a
declared relationship name, given the record's written entries. -/
def expectedRel (entries : List (String × RecordRel)) (nm : String) :
    Option ReadRelData :=
  match entries.lookup nm with
  | none => none
  | some rr => specReshape rr

/-- A malformed-or-absent blob: `JSON.parse` on the cell either throws
or the cell is SQL NULL. -/
def badBlob (c : Cell) : Prop :=
  jsonParseCell c = Except.error () ∨ c = Cell.null

/-! ## Concrete sample objects (for witnesses and counterexamples) -/

/-- The planet model's declared relationships: many moons, one solar
system. -/
def planetRels : List (String × RelDef) :=
  [("moons", { kind := RelKind.hasMany, model := "moon" }),
   ("solarSystem", { kind := RelKind.hasOne, model := "solarSystem" })]

def planetModel : ModelDef := { relationships := some planetRels }

/-- A small schema: a planet has many moons and one solar system. -/
def sampleSchema : DbSchema :=
  { models :=
      [("planet", planetModel),
       ("moon",
        { relationships := some
            [("planet", { kind := RelKind.hasOne, model := "planet" })] }),
       ("solarSystem", { relationships := none })] }

def jupiterRec : Rec :=
  { type := "planet"
    id := "jupiter"
    attributes := some [("name", AttrVal.str "Jupiter")]
    keys := some [("remoteId", AttrVal.str "j")]
    relationships := some
      [("moons", some (RelData.many
          [⟨"moon", "io"⟩, ⟨"moon", "europa"⟩])),
       ("solarSystem", some (RelData.one none))] }

/-- A planet record carrying no relationships field at all. -/
def saturnRec : Rec :=
  { type := "planet"
    id := "saturn"
    attributes := some [("name", AttrVal.str "Saturn")]
    keys := some []
    relationships := none }

def sampleRow : RecordRow :=
  { id := "jupiter", attributes := Cell.null, keys := Cell.null }

def sampleEdge : EdgeRow :=
  ⟨"jupiter", "planet", "moons", some "io", some "moon"⟩

/-- A state holding the jupiter row and one edge sourced at it. -/
def sampleState : DBState :=
  { tables := fun t => if t = "planet" then [sampleRow] else []
    edges := [sampleEdge] }

/-- The empty database state. -/
def emptyState : DBState :=
  { tables := fun _ => [], edges := [] }

def sampleRelIdent : RelIdent :=
  { record := ⟨"planet", "jupiter"⟩
    relationship := "moons"
    relatedRecord := ⟨"moon", "io"⟩ }

/-- A state already holding the edge `addInverseRelationshipsAsync`
would insert for `sampleRelIdent`. -/
def sampleEdgeState : DBState :=
  { tables := fun _ => [], edges := [inverseEdge sampleRelIdent] }

/-- A table state where every table exists and is empty. -/
def sampleTS : TableState := fun _ => some []

/-! # Theorems -/

/-! ## Statement-interpreter lemmas -/

theorem applyStmt_table_ne (st : TableState) (s : SqlStmt) (nm : String)
    (h : s.table ≠ nm) : applyStmt st s nm = st nm := by
  cases s <;>
    simp only [SqlStmt.table] at h <;>
    simp [applyStmt, Ne.symm h]

theorem foldl_applyStmt_ne (l : List SqlStmt) (st : TableState)
    (nm : String) (h : ∀ s ∈ l, SqlStmt.table s ≠ nm) :
    (l.foldl applyStmt st) nm = st nm := by
  induction l generalizing st with
  | nil => rfl
  | cons s l ih =>
    rw [List.foldl_cons,
      ih _ (fun x hx => h x (List.mem_cons_of_mem _ hx)),
      applyStmt_table_ne st s nm (h s (List.mem_cons_self _ _))]

/-- Running `_setInternalVersion k` on a state where the internal
version table exists leaves it holding exactly the one row `k`. -/
theorem setIV_foldl (k : Nat) (Y : TableState) (l : List AbsRow)
    (hY : Y INTERNAL_VERSION_TABLE_NAME = some l) :
    ((setInternalVersionStmts k).foldl applyStmt Y)
        INTERNAL_VERSION_TABLE_NAME = some [AbsRow.version k] := by
  simp only [setInternalVersionStmts, List.foldl_cons, List.foldl_nil,
    applyStmt]
  simp [hY]

/-- The internal-version step of `_migrateDBInternalTo1` commits
version 1 (the table is created and written inside the transaction). -/
theorem run_to1_IVT (existingData : List (String × List RecordRow))
    (st : TableState) :
    ((migrateTo1Stmts existingData).foldl applyStmt st)
        INTERNAL_VERSION_TABLE_NAME = some [AbsRow.version 1] := by
  rw [migrateTo1Stmts, List.foldl_append, List.foldl_append]
  simp [setInternalVersionStmts, applyStmt]

/-- The internal-version step of `_migrateDBInternalTo2` commits
version 2, provided the internal version table already exists and none
of the dropped per-pair tables is it. -/
theorem run_to2_IVT (drops : List String) (rels : List EdgeRow)
    (st : TableState)
    (hdrops : ∀ nm ∈ drops, nm ≠ INTERNAL_VERSION_TABLE_NAME)
    (hst : (st INTERNAL_VERSION_TABLE_NAME).isSome = true) :
    ((migrateTo2Stmts drops rels).foldl applyStmt st)
        INTERNAL_VERSION_TABLE_NAME = some [AbsRow.version 2] := by
  obtain ⟨l, hl⟩ := Option.isSome_iff_exists.1 hst
  rw [migrateTo2Stmts, List.foldl_append, List.foldl_append,
    List.foldl_append]
  have h1 : ((drops.map SqlStmt.dropTable).foldl applyStmt st)
      INTERNAL_VERSION_TABLE_NAME = st INTERNAL_VERSION_TABLE_NAME := by
    refine foldl_applyStmt_ne _ _ _ ?_
    intro s hs
    obtain ⟨nm, hnm, rfl⟩ := List.mem_map.1 hs
    simpa [SqlStmt.table] using hdrops nm hnm
  have hcr : (List.foldl applyStmt
      ((drops.map SqlStmt.dropTable).foldl applyStmt st)
      [createRelationshipTablesStmt]) INTERNAL_VERSION_TABLE_NAME
      = some l := by
    simp only [List.foldl_cons, List.foldl_nil]
    rw [applyStmt_table_ne _ _ _ (by decide), h1, hl]
  have hins : ((rels.map (fun e =>
      SqlStmt.insertRow RELATIONSHIPS_TABLE_NAME (AbsRow.edge e))).foldl
        applyStmt (List.foldl applyStmt
          ((drops.map SqlStmt.dropTable).foldl applyStmt st)
          [createRelationshipTablesStmt])) INTERNAL_VERSION_TABLE_NAME
      = some l := by
    rw [foldl_applyStmt_ne, hcr]
    intro s hs
    obtain ⟨e, _, rfl⟩ := List.mem_map.1 hs
    simp only [SqlStmt.table]
    decide
  exact setIV_foldl 2 _ l hins

/-! ## C9 — internal version table name and layout -/

/-- **C9 counterexample**: the physical format version table is *not*
named `__INTERNAL_VERSION__`; the source constant
`INTERNAL_VERSION_TABLE_NAME` is `__RN_ORBIT_SQLITE_VERSION__`. -/
theorem internal_version_table_name_cex :
    ¬ (INTERNAL_VERSION_TABLE_NAME = "__INTERNAL_VERSION__") := by
  decide

/-- **C9 (amended)**: the physical format version is persisted in a
single-row table whose name is exactly `__RN_ORBIT_SQLITE_VERSION__`,
holding one NUMERIC column named `version`: `createDB` creates it with
exactly that column list and leaves it holding the single row
`VERSION` (= 2). -/
theorem internal_version_table_layout (models : List String) (v : Nat)
    (st : TableState) (hm : INTERNAL_VERSION_TABLE_NAME ∉ models) :
    INTERNAL_VERSION_TABLE_NAME = "__RN_ORBIT_SQLITE_VERSION__" ∧
    SqlStmt.createTable INTERNAL_VERSION_TABLE_NAME
        [("version", "NUMERIC")] [] ∈ createDBStmts models v ∧
    ((createDBStmts models v).foldl applyStmt st)
        INTERNAL_VERSION_TABLE_NAME = some [AbsRow.version VERSION] := by
  refine ⟨rfl, ?_, ?_⟩
  · simp [createDBStmts, setVersionStmts, setInternalVersionStmts]
  · have hmm : ∀ s ∈ models.map createModelTableStmt,
        SqlStmt.table s ≠ INTERNAL_VERSION_TABLE_NAME := by
      intro s hs
      obtain ⟨t, ht, rfl⟩ := List.mem_map.1 hs
      simp only [createModelTableStmt, SqlStmt.table]
      exact fun e => hm (e ▸ ht)
    rw [createDBStmts]
    simp only [List.cons_append, List.nil_append, List.foldl_cons,
      List.foldl_append]
    rw [foldl_applyStmt_ne _ _ _ hmm]
    simp [setVersionStmts, setInternalVersionStmts, applyStmt,
      createRelationshipTablesStmt, VERSION_TABLE_NAME,
      INTERNAL_VERSION_TABLE_NAME, RELATIONSHIPS_TABLE_NAME, VERSION]

/-- **C9 witness** for the amended theorem at a concrete schema. -/
theorem internal_version_table_layout_witness :
    INTERNAL_VERSION_TABLE_NAME = "__RN_ORBIT_SQLITE_VERSION__" ∧
    ((createDBStmts ["planet", "moon"] 1).foldl applyStmt sampleTS)
        INTERNAL_VERSION_TABLE_NAME = some [AbsRow.version VERSION] :=
  ⟨(internal_version_table_layout ["planet", "moon"] 1 sampleTS
      (by decide)).1,
   (internal_version_table_layout ["planet", "moon"] 1 sampleTS
      (by decide)).2.2⟩

/-! ## C4 — internal migration runs stepwise, in order, to version 2 -/

/-- **C4**: for every stored internal format version `v` below the
engine's `VERSION` (= 2), `_migrateDBInternalFrom` applies the upgrade
steps in increasing order — the step to version 1 exactly when `v < 1`,
then the step to version 2, never a direct shortcut — and after the
migration the stored internal version row reads 2. -/
theorem migration_order_and_final_version (v : Nat)
    (existingData : List (String × List RecordRow))
    (drops : List String) (rels : List EdgeRow) (st : TableState)
    (hv : v < VERSION)
    (hdrops : ∀ nm ∈ drops, nm ≠ INTERNAL_VERSION_TABLE_NAME)
    (hst : v < 1 ∨ (st INTERNAL_VERSION_TABLE_NAME).isSome = true) :
    migrateDBInternalFrom v
      = (if v < 1 then [MigStep.to1] else []) ++ [MigStep.to2] ∧
    ((migrationStmts v existingData drops rels).foldl applyStmt st)
        INTERNAL_VERSION_TABLE_NAME = some [AbsRow.version 2] := by
  have hv2 : v = 0 ∨ v = 1 := by
    have : v < 2 := by simpa [VERSION] using hv
    omega
  rcases hv2 with rfl | rfl
  · refine ⟨by simp [migrateDBInternalFrom], ?_⟩
    have : migrationStmts 0 existingData drops rels
        = migrateTo1Stmts existingData
          ++ migrateTo2Stmts drops rels := by
      simp [migrationStmts, migrateDBInternalFrom, stepStmts, VERSION]
    rw [this, List.foldl_append]
    exact run_to2_IVT drops rels _ hdrops
      (by rw [run_to1_IVT]; rfl)
  · refine ⟨by simp [migrateDBInternalFrom], ?_⟩
    have : migrationStmts 1 existingData drops rels
        = migrateTo2Stmts drops rels := by
      simp [migrationStmts, migrateDBInternalFrom, stepStmts, VERSION]
    rw [this]
    rcases hst with h | h
    · omega
    · exact run_to2_IVT drops rels st hdrops h

/-- **C4 witness** at a store whose internal format version is 0. -/
theorem migration_order_and_final_version_witness :
    migrateDBInternalFrom 0 = [MigStep.to1, MigStep.to2] ∧
    ((migrationStmts 0 [] [] []).foldl applyStmt sampleTS)
        INTERNAL_VERSION_TABLE_NAME = some [AbsRow.version 2] :=
  ⟨(migration_order_and_final_version 0 [] [] [] sampleTS (by decide)
      (by intro nm h; cases h) (Or.inl (by decide))).1,
   (migration_order_and_final_version 0 [] [] [] sampleTS (by decide)
      (by intro nm h; cases h) (Or.inl (by decide))).2⟩

/-! ## C5 — the version bump is inside the step's transaction -/

/-- **C5**: for each internal-format migration step, the write of the
new stored internal version is one of the statements of that step's own
transaction (alongside the drops and reinsertions); a failed transaction
leaves the version table and every other table unchanged, and whenever
the stored internal version changed at all, the step's entire statement
list (the data rewrite included) was committed. -/
theorem migration_version_write_transactional
    (existingData : List (String × List RecordRow))
    (drops : List String) (rels : List EdgeRow) (st : TableState) :
    (SqlStmt.insertRow INTERNAL_VERSION_TABLE_NAME (AbsRow.version 1)
        ∈ migrateTo1Stmts existingData ∧
     SqlStmt.insertRow INTERNAL_VERSION_TABLE_NAME (AbsRow.version 2)
        ∈ migrateTo2Stmts drops rels) ∧
    (runTxStmts false (migrateTo1Stmts existingData) st = st ∧
     runTxStmts false (migrateTo2Stmts drops rels) st = st) ∧
    (∀ ok : Bool,
      (runTxStmts ok (migrateTo1Stmts existingData) st)
          INTERNAL_VERSION_TABLE_NAME
        ≠ st INTERNAL_VERSION_TABLE_NAME →
      runTxStmts ok (migrateTo1Stmts existingData) st
        = (migrateTo1Stmts existingData).foldl applyStmt st) ∧
    (∀ ok : Bool,
      (runTxStmts ok (migrateTo2Stmts drops rels) st)
          INTERNAL_VERSION_TABLE_NAME
        ≠ st INTERNAL_VERSION_TABLE_NAME →
      runTxStmts ok (migrateTo2Stmts drops rels) st
        = (migrateTo2Stmts drops rels).foldl applyStmt st) := by
  refine ⟨⟨?_, ?_⟩, ⟨rfl, rfl⟩, ?_, ?_⟩
  · simp [migrateTo1Stmts, setInternalVersionStmts]
  · simp [migrateTo2Stmts, setInternalVersionStmts]
  · intro ok h
    cases ok with
    | false => exact absurd rfl h
    | true => rfl
  · intro ok h
    cases ok with
    | false => exact absurd rfl h
    | true => rfl

/-- **C5 witness** at a concrete step input. -/
theorem migration_version_write_transactional_witness :
    SqlStmt.insertRow INTERNAL_VERSION_TABLE_NAME (AbsRow.version 1)
        ∈ migrateTo1Stmts [] ∧
    runTxStmts false (migrateTo1Stmts []) sampleTS = sampleTS ∧
    runTxStmts true (migrateTo2Stmts [] []) sampleTS
      = (migrateTo2Stmts [] []).foldl applyStmt sampleTS :=
  ⟨(migration_version_write_transactional [] [] [] sampleTS).1.1,
   (migration_version_write_transactional [] [] [] sampleTS).2.1.1,
   (migration_version_write_transactional [] [] [] sampleTS).2.2.2 true
     (by
       show (migrateTo2Stmts [] []).foldl applyStmt sampleTS
            INTERNAL_VERSION_TABLE_NAME
          ≠ sampleTS INTERNAL_VERSION_TABLE_NAME
       rw [run_to2_IVT [] [] sampleTS (by intro nm h; cases h) rfl]
       decide)⟩

/-! ## C2 — record removal and its edges -/

/-- **C2 counterexample**: at a state holding the `jupiter` row and one
edge sourced at it, `removeRecordAsync` deletes the row but the edge
whose `source_id`/`source_table` is the record remains in the
relationship table — the claimed edge cleanup does not happen. -/
theorem remove_record_source_edges_cex :
    ¬ ((((removeRecordAsync ⟨"planet", "jupiter"⟩ sampleState).tables
          "planet").filter (fun row => row.id = "jupiter") = []) ∧
       ((removeRecordAsync ⟨"planet", "jupiter"⟩ sampleState).edges.filter
          (edgeHasSource "jupiter" "planet") = [])) := by
  decide

/-- **C2 (amended)**: `removeRecordAsync` deletes the record's row from
its type table and leaves every other table — and the entire
relationship table, including edges whose source is the removed
record — unchanged. -/
theorem remove_record_removes_row_only (ident : RecId) (st : DBState) :
    ((removeRecordAsync ident st).tables ident.type).filter
        (fun row => row.id = ident.id) = [] ∧
    (removeRecordAsync ident st).edges = st.edges ∧
    ∀ t, ¬ t = ident.type →
      (removeRecordAsync ident st).tables t = st.tables t := by
  refine ⟨?_, rfl, ?_⟩
  · simp only [removeRecordAsync, removeRecordTx, DBState.setTable,
      eq_self_iff_true, if_true]
    rw [List.filter_filter]
    simp
  · intro t ht
    simp [removeRecordAsync, removeRecordTx, DBState.setTable, ht]

/-- **C2 witness** for the amended theorem at the sample state. -/
theorem remove_record_removes_row_only_witness :
    (((removeRecordAsync ⟨"planet", "jupiter"⟩ sampleState).tables
        "planet").filter (fun row => row.id = "jupiter") = []) ∧
    (removeRecordAsync ⟨"planet", "jupiter"⟩ sampleState).edges
      = sampleState.edges ∧
    (removeRecordAsync ⟨"planet", "jupiter"⟩ sampleState).tables "moon"
      = sampleState.tables "moon" :=
  ⟨(remove_record_removes_row_only ⟨"planet", "jupiter"⟩ sampleState).1,
   (remove_record_removes_row_only ⟨"planet", "jupiter"⟩ sampleState).2.1,
   (remove_record_removes_row_only ⟨"planet", "jupiter"⟩ sampleState).2.2
     "moon" (by decide)⟩

/-! ## C10 — a set without a relationships field erases all edges -/

/-- **C10**: `setRecordAsync` with a record whose `relationships` field
is absent still runs the unconditional source-edge DELETE and inserts
no replacement edges: the resulting edge table is exactly the old one
with every edge sourced at the record removed. -/
theorem set_without_relationships_clears_edges (r : Rec) (st : DBState)
    (h : r.relationships = none) :
    (setRecordAsync r st).map DBState.edges
      = Except.ok (st.edges.filter
          (fun e => !(edgeHasSource r.id r.type e))) := by
  cases hAny : (st.tables r.type).any (fun row => row.id = r.id) with
  | false =>
    simp only [setRecordAsync, setRecordTx, h, hAny]
    rfl
  | true =>
    cases hkv : (r.attributes.isSome || r.keys.isSome) with
    | false =>
      simp only [setRecordAsync, setRecordTx, h, hAny, hkv]
      rfl
    | true =>
      simp only [setRecordAsync, setRecordTx, h, hAny, hkv]
      rfl

/-- **C10 witness**: setting `saturnRec` (no relationships field) at the
sample state keeps the unrelated `jupiter` edge and nothing else. -/
theorem set_without_relationships_clears_edges_witness :
    (setRecordAsync saturnRec sampleState).map DBState.edges
      = Except.ok [sampleEdge] := by
  rw [set_without_relationships_clears_edges saturnRec sampleState rfl]
  rfl

/-! ## C8 — defensive decode of malformed or absent blobs -/

/-- **C8**: decoding a stored row whose `attributes` (or `keys`) column
holds a malformed or absent blob never propagates the `JSON.parse`
failure (the embedding of `_parseRecordFromDb` is total, the try/catch
substituting an empty map): the decoded record equals the decode of the
same row with the bad cell replaced by an encoded empty map — the bad
field is simply omitted while the id, the other field and the
relationships are still returned. -/
theorem parse_tolerates_bad_blob (s : DbSchema) (type id : String)
    (ac kc : Cell) (edges : List EdgeRow) (h : badBlob ac) :
    parseRecordFromDb s ⟨id, ac, kc⟩ type edges
      = parseRecordFromDb s ⟨id, Cell.text (StoredText.json []), kc⟩
          type edges ∧
    (parseRecordFromDb s ⟨id, ac, kc⟩ type edges).attributes = none ∧
    (parseRecordFromDb s ⟨id, ac, kc⟩ type edges).id = id ∧
    (parseRecordFromDb s ⟨id, ac, kc⟩ type edges).keys
      = decodeField kc ∧
    parseRecordFromDb s ⟨id, kc, ac⟩ type edges
      = parseRecordFromDb s ⟨id, kc, Cell.text (StoredText.json [])⟩
          type edges := by
  have hd : decodeField ac = none := by
    rcases h with h | h
    · simp [decodeField, h]
    · subst h; rfl
  have hd2 : decodeField (Cell.text (StoredText.json [])) = none := rfl
  refine ⟨?_, ?_, rfl, rfl, ?_⟩
  · simp [parseRecordFromDb, hd, hd2]
  · simp [parseRecordFromDb, hd]
  · simp [parseRecordFromDb, hd, hd2]

/-- **C8 witness** at a concrete malformed attributes blob. -/
theorem parse_tolerates_bad_blob_witness :
    badBlob (Cell.text (StoredText.malformed 0)) ∧
    (parseRecordFromDb sampleSchema
        ⟨"jupiter", Cell.text (StoredText.malformed 0), Cell.null⟩
        "planet" []).attributes = none :=
  ⟨Or.inl rfl,
   (parse_tolerates_bad_blob sampleSchema "planet" "jupiter"
      (Cell.text (StoredText.malformed 0)) Cell.null []
      (Or.inl rfl)).2.1⟩

/-! ## C6 — idempotency of the bulk edge operations -/

theorem except_bind_error {α β : Type} (e : Unit)
    (f : α → Except Unit β) :
    (Except.error e >>= f) = Except.error e := rfl

theorem except_bind_ok {α β : Type} (a : α) (f : α → Except Unit β) :
    (Except.ok a >>= f) = f a := rfl

/-- A successful `insertEdge` saw no primary-key conflict and appended
its row. -/
theorem insertEdge_ok (e : EdgeRow) (tbl out : List EdgeRow)
    (h : insertEdge e tbl = Except.ok out) :
    tbl.any (edgeConflicts e) = false ∧ out = tbl ++ [e] := by
  unfold insertEdge at h
  by_cases hc : tbl.any (edgeConflicts e) = true
  · rw [if_pos hc] at h; cases h
  · rw [if_neg hc] at h
    cases h
    exact ⟨Bool.eq_false_iff.2 hc, rfl⟩

/-- Each insert of a successful `addInverseRelationshipsAsync`
transaction was conflict-free against the edge table it saw — in
particular against every row already present at the start. -/
theorem foldlM_insertEdge_ok_no_conflict :
    ∀ (l : List RelIdent) (acc out : List EdgeRow),
      l.foldlM (fun a ri => insertEdge (inverseEdge ri) a) acc
          = Except.ok out →
      ∀ ri ∈ l, ∀ x ∈ acc, edgeConflicts (inverseEdge ri) x = false := by
  intro l
  induction l with
  | nil => intro acc out h ri hri; cases hri
  | cons r rs ih =>
    intro acc out h ri hri x hx
    rw [List.foldlM_cons] at h
    cases hins : insertEdge (inverseEdge r) acc with
    | error e => rw [hins, except_bind_error] at h; cases h
    | ok acc' =>
      rw [hins, except_bind_ok] at h
      obtain ⟨hc, rfl⟩ := insertEdge_ok _ _ _ hins
      rcases List.mem_cons.1 hri with rfl | hri'
      · exact Bool.eq_false_iff.2 (fun hcx =>
          (Bool.eq_false_iff.1 hc) (List.any_eq_true.2 ⟨x, hx, hcx⟩))
      · exact ih (acc ++ [inverseEdge r]) out h ri hri' x
          (List.mem_append_left _ hx)

/-- **C6 counterexample**: adding an inverse-relationship edge that is
already present in the edge table is *not* a succeeding no-op: the
first call inserts the edge, and a second call with the same edge hits
the five-column primary key and fails the transaction. -/
theorem add_inverse_duplicate_cex :
    (addInverseRelationshipsAsync [sampleRelIdent] emptyState).map
        DBState.edges = Except.ok [inverseEdge sampleRelIdent] ∧
    (addInverseRelationshipsAsync [sampleRelIdent] sampleEdgeState).map
        DBState.edges = Except.error () :=
  ⟨rfl, rfl⟩

/-- **C6 (amended)**: removing absent edges is a no-op that succeeds
and changes nothing; but adding an edge already present (with non-null
targets) makes the whole transaction fail with a primary-key conflict
instead of succeeding — the edge table still ends up as after a single
call, because the failed transaction rolls back, yet the call reports
an error rather than being a no-op. -/
theorem inverse_edge_ops_amended (rels : List RelIdent) (st : DBState) :
    ((∀ ri ∈ rels, ∀ e ∈ st.edges, matchesInverse ri e = false) →
        removeInverseRelationshipsAsync rels st = st) ∧
    (∀ ri ∈ rels, ∀ x ∈ st.edges,
        edgeConflicts (inverseEdge ri) x = true →
        (addInverseRelationshipsAsync rels st).map DBState.edges
          = Except.error ()) := by
  constructor
  · intro h
    by_cases he : rels.isEmpty
    · simp [removeInverseRelationshipsAsync, he]
    · have hfold : rels.foldl (fun es ri =>
          es.filter (fun e => !(matchesInverse ri e))) st.edges
          = st.edges := by
        have key : ∀ (l : List RelIdent),
            (∀ ri ∈ l, ∀ e ∈ st.edges, matchesInverse ri e = false) →
            l.foldl (fun es ri =>
              es.filter (fun e => !(matchesInverse ri e))) st.edges
              = st.edges := by
          intro l
          induction l with
          | nil => intro _; rfl
          | cons r rs ihl =>
            intro hl
            rw [List.foldl_cons, List.filter_eq_self.2
              (fun e he => by simp [hl r (List.mem_cons_self _ _) e he])]
            exact ihl (fun ri hri e he =>
              hl ri (List.mem_cons_of_mem _ hri) e he)
        exact key rels h
      simp [removeInverseRelationshipsAsync, he, hfold]
  · intro ri hri x hx hconf
    have hne : rels.isEmpty = false := by
      cases rels with
      | nil => cases hri
      | cons a l => rfl
    cases hfold : rels.foldlM (fun a ri => insertEdge (inverseEdge ri) a)
        st.edges with
    | error e =>
        simp [addInverseRelationshipsAsync, hne, hfold, Except.map]
    | ok out =>
        have := foldlM_insertEdge_ok_no_conflict rels st.edges out hfold
          ri hri x hx
        rw [hconf] at this
        cases this

/-- **C6 witness** for the amended theorem: removing an edge from the
empty table succeeds and changes nothing; re-adding the already-present
sample edge fails. -/
theorem inverse_edge_ops_amended_witness :
    removeInverseRelationshipsAsync [sampleRelIdent] emptyState
      = emptyState ∧
    (addInverseRelationshipsAsync [sampleRelIdent] sampleEdgeState).map
        DBState.edges = Except.error () :=
  ⟨(inverse_edge_ops_amended [sampleRelIdent] emptyState).1
     (by intro ri hri e he; cases he),
   (inverse_edge_ops_amended [sampleRelIdent] sampleEdgeState).2
     sampleRelIdent (by decide) (inverseEdge sampleRelIdent) (by decide)
     (by decide)⟩

/-! ## Round-trip machinery: edge inserts of `_setRecord` succeed and
append exactly the record's relationship edges -/

theorem edgeConflicts_true (e x : EdgeRow) :
    edgeConflicts e x = true ↔
      (x.source_id = e.source_id ∧ x.source_table = e.source_table ∧
       x.relation_name = e.relation_name ∧ x.target_id = e.target_id ∧
       e.target_id.isSome = true ∧ x.target_table = e.target_table ∧
       e.target_table.isSome = true) := by
  simp [edgeConflicts, and_assoc]

theorem insertEdge_no_conflict (e : EdgeRow) (tbl : List EdgeRow)
    (hc : tbl.any (edgeConflicts e) = false) :
    insertEdge e tbl = Except.ok (tbl ++ [e]) := by
  unfold insertEdge
  rw [hc]
  rfl

theorem any_false_of_all_false {α : Type} (p : α → Bool) (l : List α)
    (h : ∀ x ∈ l, p x = false) : l.any p = false :=
  List.any_eq_false.2 fun x hx hc => by rw [h x hx] at hc; cases hc

/-- No row of `tbl` whose source key is `(id, type, name)` means no
primary-key conflict for any edge with that source key. -/
theorem no_conflict_of_fresh (id type name : String)
    (ti tt : Option String) (tbl : List EdgeRow)
    (hfresh : ∀ x ∈ tbl,
      ¬(x.source_id = id ∧ x.source_table = type ∧
        x.relation_name = name)) :
    tbl.any (edgeConflicts ⟨id, type, name, ti, tt⟩) = false :=
  any_false_of_all_false _ _ fun x hx => Bool.eq_false_iff.2 fun hc => by
    obtain ⟨h1, h2, h3, _⟩ :=
      (edgeConflicts_true ⟨id, type, name, ti, tt⟩ x).1 hc
    exact hfresh x hx ⟨h1, h2, h3⟩

theorem relEntryEdges_fields (id type name : String) (rr : RecordRel) :
    ∀ e ∈ relEntryEdges id type name rr,
      e.source_id = id ∧ e.source_table = type ∧
        e.relation_name = name := by
  intro e he
  match rr with
  | none => cases he
  | some (RelData.many l) =>
      obtain ⟨t, _, rfl⟩ := List.mem_map.1 he
      exact ⟨rfl, rfl, rfl⟩
  | some (RelData.one (some rel)) =>
      rcases List.mem_singleton.1 he with rfl
      exact ⟨rfl, rfl, rfl⟩
  | some (RelData.one none) =>
      rcases List.mem_singleton.1 he with rfl
      exact ⟨rfl, rfl, rfl⟩

/-- The hasMany insert loop of `_setRecord` succeeds on a
duplicate-free data array whose edges conflict with nothing in the
table, and appends exactly the corresponding edges. -/
theorem insertMany_ok (id type name : String) :
    ∀ (l : List RecId) (tbl : List EdgeRow), l.Nodup →
      (∀ t ∈ l, ∀ x ∈ tbl,
        edgeConflicts ⟨id, type, name, some t.id, some t.type⟩ x
          = false) →
      l.foldlM (fun acc rel =>
          insertEdge ⟨id, type, name, some rel.id, some rel.type⟩ acc)
        tbl
        = Except.ok (tbl ++ l.map (fun rel =>
            ⟨id, type, name, some rel.id, some rel.type⟩)) := by
  intro l
  induction l with
  | nil => intro tbl _ _; rw [List.map_nil, List.append_nil]; rfl
  | cons t ts ih =>
    intro tbl hnd hfresh
    have hstep : ∀ t' ∈ ts,
        ∀ x ∈ tbl ++
          [(⟨id, type, name, some t.id, some t.type⟩ : EdgeRow)],
        edgeConflicts ⟨id, type, name, some t'.id, some t'.type⟩ x
          = false := by
      intro t' ht' x hx
      rcases List.mem_append.1 hx with hx | hx
      · exact hfresh t' (List.mem_cons_of_mem _ ht') x hx
      · rcases List.mem_singleton.1 hx with rfl
        refine Bool.eq_false_iff.2 fun hc => ?_
        obtain ⟨-, -, -, h4, -, h6, -⟩ :=
          (edgeConflicts_true
            ⟨id, type, name, some t'.id, some t'.type⟩ _).1 hc
        have ht : t = t' := by
          cases t; cases t'
          simp only [Option.some.injEq] at h4 h6
          simp_all
        exact (List.nodup_cons.1 hnd).1 (ht ▸ ht')
    rw [List.foldlM_cons,
      insertEdge_no_conflict _ _
        (any_false_of_all_false _ _
          (hfresh t (List.mem_cons_self _ _))),
      except_bind_ok]
    show List.foldlM _
        (tbl ++ [⟨id, type, name, some t.id, some t.type⟩]) ts = _
    rw [ih _ (List.nodup_cons.1 hnd).2 hstep]
    simp

/-- One relationships entry of `_setRecord` inserts exactly its edges,
without failing, when the table holds no edge with the same source key
and the entry is well-formed. -/
theorem insertRelEntry_ok (id type name : String) (rr : RecordRel)
    (tbl : List EdgeRow)
    (hfresh : ∀ x ∈ tbl,
      ¬(x.source_id = id ∧ x.source_table = type ∧
        x.relation_name = name))
    (hwf : WFentry rr) :
    insertRelEntry id type name rr tbl
      = Except.ok (tbl ++ relEntryEdges id type name rr) := by
  match rr with
  | none => simp [insertRelEntry, relEntryEdges]
  | some (RelData.many l) =>
      exact insertMany_ok id type name l tbl hwf
        (fun t _ x hx => Bool.eq_false_iff.2 fun hc => by
          obtain ⟨h1, h2, h3, _⟩ := (edgeConflicts_true _ _).1 hc
          exact hfresh x hx ⟨h1, h2, h3⟩)
  | some (RelData.one (some rel)) =>
      exact insertEdge_no_conflict _ _
        (no_conflict_of_fresh id type name _ _ tbl hfresh)
  | some (RelData.one none) =>
      exact insertEdge_no_conflict _ _
        (no_conflict_of_fresh id type name _ _ tbl hfresh)

theorem relEdges_cons (id type : String) (nr : String × RecordRel)
    (rest : List (String × RecordRel)) :
    relEdges id type (nr :: rest)
      = relEntryEdges id type nr.1 nr.2 ++ relEdges id type rest := by
  simp [relEdges]

theorem relEdges_fields (id type : String)
    (entries : List (String × RecordRel)) :
    ∀ e ∈ relEdges id type entries,
      e.source_id = id ∧ e.source_table = type ∧
        e.relation_name ∈ entries.map Prod.fst := by
  intro e he
  obtain ⟨nr, hnr, hmem⟩ := List.mem_flatMap.1 he
  obtain ⟨h1, h2, h3⟩ := relEntryEdges_fields id type nr.1 nr.2 e hmem
  exact ⟨h1, h2, h3 ▸ List.mem_map_of_mem Prod.fst hnr⟩

/-- The whole relationships loop of `_setRecord` succeeds and appends
exactly the record's relationship edges, provided the entry names are
distinct, each entry is well-formed, and the table holds no edge whose
source key collides with a remaining entry. -/
theorem insertEntries_ok (id type : String) :
    ∀ (entries : List (String × RecordRel)) (tbl : List EdgeRow),
      (entries.map Prod.fst).Nodup →
      (∀ nr ∈ entries, WFentry nr.2) →
      (∀ x ∈ tbl, (x.source_id = id ∧ x.source_table = type) →
        x.relation_name ∉ entries.map Prod.fst) →
      entries.foldlM (fun acc nr =>
          insertRelEntry id type nr.1 nr.2 acc) tbl
        = Except.ok (tbl ++ relEdges id type entries) := by
  intro entries
  induction entries with
  | nil =>
    intro tbl _ _ _
    rw [show relEdges id type [] = [] from rfl, List.append_nil]
    rfl
  | cons nr rest ih =>
    intro tbl hnd hwf hfresh
    have hnd' : (nr.1 :: rest.map Prod.fst).Nodup := by simpa using hnd
    have hfr1 : ∀ x ∈ tbl,
        ¬(x.source_id = id ∧ x.source_table = type ∧
          x.relation_name = nr.1) := by
      intro x hx hkey
      exact hfresh x hx ⟨hkey.1, hkey.2.1⟩
        (hkey.2.2 ▸ List.mem_cons_self _ _)
    have hfr2 : ∀ x ∈ tbl ++ relEntryEdges id type nr.1 nr.2,
        (x.source_id = id ∧ x.source_table = type) →
        x.relation_name ∉ rest.map Prod.fst := by
      intro x hx hsrc
      rcases List.mem_append.1 hx with hx | hx
      · intro hmem
        exact hfresh x hx hsrc (List.mem_cons_of_mem _ hmem)
      · obtain ⟨-, -, h3⟩ := relEntryEdges_fields id type nr.1 nr.2 x hx
        rw [h3]
        exact (List.nodup_cons.1 hnd').1
    rw [List.foldlM_cons,
      insertRelEntry_ok id type nr.1 nr.2 tbl hfr1
        (hwf nr (List.mem_cons_self _ _)),
      except_bind_ok]
    show List.foldlM _ (tbl ++ relEntryEdges id type nr.1 nr.2) rest = _
    rw [ih _ (List.nodup_cons.1 hnd').2
        (fun x hx => hwf x (List.mem_cons_of_mem _ hx)) hfr2,
      relEdges_cons, List.append_assoc]

/-! ## Association-list and filter lemmas -/

theorem lookup_cons_self {β : Type} (a : String) (v : β)
    (es : List (String × β)) :
    List.lookup a ((a, v) :: es) = some v := by
  simp [List.lookup_cons]

theorem lookup_cons_ne {β : Type} (a k : String) (v : β)
    (es : List (String × β)) (h : a ≠ k) :
    List.lookup a ((k, v) :: es) = List.lookup a es := by
  rw [List.lookup_cons, beq_false_of_ne h]

theorem lookup_of_mem_nodup {β : Type} (l : List (String × β))
    (a : String) (b : β) (hnd : (l.map Prod.fst).Nodup)
    (hmem : (a, b) ∈ l) : l.lookup a = some b := by
  induction l with
  | nil => cases hmem
  | cons p rest ih =>
    rcases List.mem_cons.1 hmem with rfl | hmem'
    · exact lookup_cons_self a b rest
    · cases p with
      | mk k v =>
        have hne : k ≠ a := fun he =>
          (List.nodup_cons.1 (by simpa using hnd)).1
            (he ▸ List.mem_map_of_mem Prod.fst hmem')
        rw [lookup_cons_ne a k v rest (Ne.symm hne)]
        exact ih (List.nodup_cons.1 (by simpa using hnd)).2 hmem'

theorem mem_of_lookup {β : Type} (l : List (String × β)) (a : String)
    (b : β) (h : l.lookup a = some b) : (a, b) ∈ l := by
  induction l with
  | nil => cases h
  | cons p rest ih =>
    cases p with
    | mk k v =>
      by_cases hk : a = k
      · subst hk
        rw [lookup_cons_self] at h
        cases h
        exact List.mem_cons_self _ _
      · rw [lookup_cons_ne a k v rest hk] at h
        exact List.mem_cons_of_mem _ (ih h)

theorem lookup_filterMap_none {γ : Type}
    (rels : List (String × RelDef)) (G : String → Option γ)
    (nm : String) (h : nm ∉ rels.map Prod.fst) :
    (rels.filterMap (fun nd =>
      (G nd.1).map (fun v => (nd.1, v)))).lookup nm = none := by
  induction rels with
  | nil => rfl
  | cons p rest ih =>
    have hne : p.1 ≠ nm := fun he =>
      h (he ▸ List.mem_map_of_mem Prod.fst (List.mem_cons_self _ _))
    have hrest : nm ∉ rest.map Prod.fst := fun hm =>
      h (List.mem_cons_of_mem _ hm)
    rw [List.filterMap_cons]
    cases G p.1 with
    | none => exact ih hrest
    | some v =>
      simp only [Option.map_some']
      rw [lookup_cons_ne nm p.1 v _ (Ne.symm hne)]
      exact ih hrest

/-- Looking up a declared relationship name in the read-back list built
by `filterMap` over the declared relationships yields the value the
generator assigns to that name. -/
theorem lookup_filterMap_decl {γ : Type}
    (rels : List (String × RelDef)) (G : String → Option γ)
    (nm : String) (hnd : (rels.map Prod.fst).Nodup) (d : RelDef)
    (hl : rels.lookup nm = some d) :
    (rels.filterMap (fun nd =>
      (G nd.1).map (fun v => (nd.1, v)))).lookup nm = G nm := by
  induction rels with
  | nil => cases hl
  | cons p rest ih =>
    cases p with
    | mk a rd =>
      rw [List.map_cons] at hnd
      have hnd' := List.nodup_cons.1 hnd
      by_cases ha : a = nm
      · subst ha
        rw [List.filterMap_cons]
        cases hG : G a with
        | none => exact lookup_filterMap_none rest G a hnd'.1
        | some v =>
          simp only [Option.map_some']
          rw [lookup_cons_self]
      · rw [lookup_cons_ne nm a rd rest (fun h => ha h.symm)] at hl
        rw [List.filterMap_cons]
        cases hG : G a with
        | none => exact ih hnd'.2 hl
        | some v =>
          simp only [Option.map_some']
          rw [lookup_cons_ne nm a v _ (fun h => ha h.symm)]
          exact ih hnd'.2 hl

theorem filter_not_self {α : Type} (p : α → Bool) (l : List α) :
    (l.filter (fun e => !(p e))).filter p = [] := by
  induction l with
  | nil => rfl
  | cons a l ih =>
    cases hpa : p a <;> simp [List.filter_cons, hpa, ih]

theorem relEdges_filter_source (id type : String)
    (entries : List (String × RecordRel)) :
    (relEdges id type entries).filter (edgeHasSource id type)
      = relEdges id type entries :=
  List.filter_eq_self.2 fun e he => by
    obtain ⟨h1, h2, -⟩ := relEdges_fields id type entries e he
    simp [edgeHasSource, h1, h2]

/-- Filtering the freshly inserted edges by relationship name recovers
exactly the edges of that name's entry. -/
theorem relEdges_filter_name (id type : String) (nm : String) :
    ∀ (entries : List (String × RecordRel)),
      (entries.map Prod.fst).Nodup →
      (relEdges id type entries).filter
          (fun e => e.relation_name = nm)
        = (match entries.lookup nm with
           | some rr => relEntryEdges id type nm rr
           | none => []) := by
  intro entries
  induction entries with
  | nil => intro _; rfl
  | cons nr rest ih =>
    intro hnd
    rw [List.map_cons] at hnd
    have hnd' := List.nodup_cons.1 hnd
    cases nr with
    | mk a rr' =>
      rw [relEdges_cons, List.filter_append]
      by_cases ha : a = nm
      · subst ha
        have hhead : (relEntryEdges id type a rr').filter
            (fun e => e.relation_name = a)
            = relEntryEdges id type a rr' :=
          List.filter_eq_self.2 fun e he => by
            obtain ⟨-, -, h3⟩ := relEntryEdges_fields id type a rr' e he
            simp [h3]
        have hrest : (relEdges id type rest).filter
            (fun e => e.relation_name = a) = [] := by
          rw [List.filter_eq_nil_iff]
          intro e he
          obtain ⟨-, -, h3⟩ := relEdges_fields id type rest e he
          simp only [decide_eq_true_eq]
          exact fun hcontra => hnd'.1 (hcontra ▸ h3)
        rw [hhead, hrest, List.append_nil, lookup_cons_self]
      · have hhead : (relEntryEdges id type a rr').filter
            (fun e => e.relation_name = nm) = [] := by
          rw [List.filter_eq_nil_iff]
          intro e he
          obtain ⟨-, -, h3⟩ := relEntryEdges_fields id type a rr' e he
          simp only [decide_eq_true_eq]
          exact fun hc => ha (h3.symm.trans hc)
        rw [hhead, List.nil_append, ih hnd'.2,
          lookup_cons_ne nm a rr' rest (fun h => ha h.symm)]

/-- In a table whose ids satisfy the primary-key invariant, a positive
existence probe yields a unique matching row. -/
theorem filter_id_singleton :
    ∀ (l : List RecordRow) (x : String),
      (l.map RecordRow.id).Nodup →
      l.any (fun row => row.id = x) = true →
      ∃ row, row ∈ l ∧ row.id = x ∧
        l.filter (fun row => row.id = x) = [row] := by
  intro l
  induction l with
  | nil => intro x _ hx; cases hx
  | cons a rest ih =>
    intro x hnd hx
    rw [List.map_cons] at hnd
    have hnd' := List.nodup_cons.1 hnd
    by_cases ha : a.id = x
    · refine ⟨a, List.mem_cons_self _ _, ha, ?_⟩
      rw [List.filter_cons, if_pos (by simpa using ha)]
      have : rest.filter (fun row => row.id = x) = [] := by
        rw [List.filter_eq_nil_iff]
        intro row hrow
        simp only [decide_eq_true_eq]
        exact fun hc => hnd'.1
          (ha ▸ hc ▸ List.mem_map_of_mem RecordRow.id hrow)
      rw [this]
    · rw [List.filter_cons, if_neg (by simpa using ha)]
      have hx' : rest.any (fun row => row.id = x) = true := by
        rcases List.any_eq_true.1 hx with ⟨row, hrow, hp⟩
        rcases List.mem_cons.1 hrow with rfl | hrow'
        · exact absurd (by simpa using hp) ha
        · exact List.any_eq_true.2 ⟨row, hrow', hp⟩
      obtain ⟨row, hmem, hid, hfil⟩ := ih x hnd'.2 hx'
      exact ⟨row, List.mem_cons_of_mem _ hmem, hid, hfil⟩

/-! ## Reading back freshly written relationships -/

/-- `_getRelationshipsForRecord`, on an edge table consisting of
no-source leftovers plus the record's freshly inserted edges, reports
exactly the spec's cardinality reshaping of the written entries, for
each declared relationship name in declaration order. -/
theorem getRels_on_fresh_edges (s : DbSchema) (type id : String)
    (m : ModelDef) (rels : List (String × RelDef))
    (entries : List (String × RecordRel)) (edges0 : List EdgeRow)
    (hm : s.getModel type = some m)
    (hrels : m.relationships = some rels)
    (hrnd : (rels.map Prod.fst).Nodup)
    (hend : (entries.map Prod.fst).Nodup)
    (hconf : ∀ nr ∈ entries, entryConforms rels nr)
    (h0 : ∀ x ∈ edges0, edgeHasSource id type x = false) :
    getRelationshipsForRecord s type id
        (edges0 ++ relEdges id type entries)
      = rels.filterMap (fun nd =>
          (expectedRel entries nd.1).map (fun v => (nd.1, v))) := by
  have hres : (edges0 ++ relEdges id type entries).filter
      (edgeHasSource id type) = relEdges id type entries := by
    rw [List.filter_append, relEdges_filter_source,
      List.filter_eq_nil_iff.2
        (fun x hx hc => by rw [h0 x hx] at hc; cases hc),
      List.nil_append]
  simp only [getRelationshipsForRecord, hm, hrels, hres]
  refine List.filterMap_congr (fun nd hnd => ?_)
  cases nd with
  | mk nm rd =>
    rw [relEdges_filter_name id type nm entries hend]
    cases hlook : entries.lookup nm with
    | none => simp [expectedRel, hlook]
    | some rr =>
      have hmem := mem_of_lookup entries nm rr hlook
      have hcf := hconf _ hmem
      have hlookd := lookup_of_mem_nodup rels nm rd hrnd hnd
      cases rr with
      | none => simp [relEntryEdges, expectedRel, hlook, specReshape]
      | some rdata =>
        cases rdata with
        | many l =>
          obtain ⟨⟨d, hd, hk⟩, -⟩ := hcf
          have hrd : rd.kind = RelKind.hasMany := by
            rw [hlookd] at hd
            cases hd
            exact hk
          cases l with
          | nil => simp [relEntryEdges, expectedRel, hlook, specReshape]
          | cons t ts =>
            simp only [relEntryEdges, expectedRel, hlook, specReshape,
              List.map_map, List.map_cons, List.isEmpty_cons, hrd,
              if_true, Option.map_some']
            simp [edgeTargetIdent, RecId.toDb, Function.comp]
        | one tgt =>
          obtain ⟨d, hd, hk⟩ := hcf
          have hrd : rd.kind = RelKind.hasOne := by
            rw [hlookd] at hd
            cases hd
            exact hk
          have hnotmany : (rd.kind = RelKind.hasMany) = False := by
            simp [hrd]
          cases tgt with
          | none =>
            simp [relEntryEdges, expectedRel, hlook, specReshape,
              edgeTargetIdent, hnotmany]
          | some t =>
            simp [relEntryEdges, expectedRel, hlook, specReshape,
              edgeTargetIdent, hnotmany, RecId.toDb]

/-- `setRecordAsync` on a well-formed record succeeds; the resulting
state replaces the record's type table (leaving a unique row for the
record holding its encoded attributes and keys) and replaces its source
edges with exactly the relationship edges of the record. -/
theorem setRecord_state (r : Rec) (st : DBState)
    (hnames : ((r.relationships.getD []).map Prod.fst).Nodup)
    (hwf : ∀ nr ∈ r.relationships.getD [], WFentry nr.2)
    (hids : ((st.tables r.type).map RecordRow.id).Nodup)
    (hA : r.attributes.isSome = true) (hK : r.keys.isSome = true) :
    ∃ tbl',
      setRecordAsync r st = Except.ok
        { tables := fun n => if n = r.type then tbl' else st.tables n
          edges := st.edges.filter
              (fun e => !(edgeHasSource r.id r.type e))
            ++ relEdges r.id r.type (r.relationships.getD []) } ∧
      ∃ row, tbl'.filter (fun q => q.id = r.id) = [row] ∧
        row.id = r.id ∧
        row.attributes
          = Cell.text (StoredText.json (r.attributes.getD [])) ∧
        row.keys = Cell.text (StoredText.json (r.keys.getD [])) := by
  obtain ⟨am, hamEq⟩ := Option.isSome_iff_exists.1 hA
  obtain ⟨km, hkmEq⟩ := Option.isSome_iff_exists.1 hK
  have hfr : ∀ x ∈ st.edges.filter
      (fun e => !(edgeHasSource r.id r.type e)),
      (x.source_id = r.id ∧ x.source_table = r.type) →
      x.relation_name ∉ (r.relationships.getD []).map Prod.fst := by
    intro x hx hkey
    have := (List.mem_filter.1 hx).2
    simp [edgeHasSource, hkey.1, hkey.2] at this
  have hedges : (match r.relationships with
      | none => Except.ok (st.edges.filter
          (fun e => !(edgeHasSource r.id r.type e)))
      | some entries => entries.foldlM (fun acc nr =>
          insertRelEntry r.id r.type nr.1 nr.2 acc)
          (st.edges.filter (fun e => !(edgeHasSource r.id r.type e))))
      = Except.ok (st.edges.filter
          (fun e => !(edgeHasSource r.id r.type e))
        ++ relEdges r.id r.type (r.relationships.getD [])) := by
    cases hrel : r.relationships with
    | none =>
      rw [show relEdges r.id r.type ((none : Option _).getD []) = []
          from rfl, List.append_nil]
    | some entries =>
      exact insertEntries_ok r.id r.type entries _
        (by simpa [hrel] using hnames)
        (by simpa [hrel] using hwf)
        (by simpa [hrel] using hfr)
  cases hAny : (st.tables r.type).any (fun row => row.id = r.id) with
  | false =>
    refine ⟨st.tables r.type ++ [insertedRow r], ?_, ?_⟩
    · simp only [setRecordAsync, setRecordTx, hAny, Bool.not_false,
        Bool.false_eq_true, if_false, if_true, hedges]
      rfl
    · refine ⟨insertedRow r, ?_, rfl, ?_, ?_⟩
      · rw [List.filter_append,
          List.filter_eq_nil_iff.2 (List.any_eq_false.1 hAny)]
        simp [insertedRow]
      · simp [insertedRow, hamEq]
      · simp [insertedRow, hkmEq]
  | true =>
    obtain ⟨row0, hmem0, hid0, hfil0⟩ :=
      filter_id_singleton (st.tables r.type) r.id hids hAny
    have hor : (r.attributes.isSome || r.keys.isSome) = true := by
      rw [hA, Bool.true_or]
    refine ⟨(st.tables r.type).map (fun row =>
      if row.id = r.id then updatedRow r row else row), ?_, ?_⟩
    · simp only [setRecordAsync, setRecordTx, hAny, Bool.not_true,
        Bool.false_eq_true, if_false, if_true, hor, hedges]
      rfl
    · have hg : ∀ row : RecordRow,
          ((if row.id = r.id then updatedRow r row else row).id)
            = row.id := by
        intro row
        by_cases h : row.id = r.id <;> simp [h, updatedRow]
      have hpc : ∀ row ∈ st.tables r.type,
          ((fun q : RecordRow => decide (q.id = r.id)) ∘ (fun row =>
            if row.id = r.id then updatedRow r row else row)) row
            = decide (row.id = r.id) := by
        intro row _
        simp [Function.comp, hg row]
      rw [List.filter_map, List.filter_congr hpc, hfil0]
      refine ⟨updatedRow r row0, ?_, ?_, ?_, ?_⟩
      · simp [hid0]
      · simpa [updatedRow] using hid0
      · simp [updatedRow, hamEq]
      · simp [updatedRow, hkmEq]

theorem if_isEmpty_getD {γ : Type} (l : List γ) :
    (if l.isEmpty then (none : Option (List γ)) else some l).getD []
      = l := by
  cases h : l.isEmpty
  · simp
  · simp [List.isEmpty_iff.1 h]

theorem decode_getD (mp : AttrMap) :
    (decodeField (Cell.text (StoredText.json mp))).getD [] = mp := by
  simp only [decodeField, jsonParseCell]
  cases hmp : mp.isEmpty
  · simp
  · simp [List.isEmpty_iff.1 hmp]

theorem WFentry_of_conforms (rels : List (String × RelDef))
    (nr : String × RecordRel) (h : entryConforms rels nr) :
    WFentry nr.2 := by
  cases nr with
  | mk name rr =>
    cases rr with
    | none => trivial
    | some rdata =>
      cases rdata with
      | many l => exact h.2
      | one t => trivial

theorem lookup_eq_none_of_not_mem {β : Type} (l : List (String × β))
    (nm : String) (h : nm ∉ l.map Prod.fst) : l.lookup nm = none := by
  cases hl : l.lookup nm with
  | none => rfl
  | some b =>
    exact absurd
      (List.mem_map_of_mem Prod.fst (mem_of_lookup l nm b hl)) h

theorem getRecord_of_filter (s : DbSchema) (t i : String)
    (st : DBState) (row : RecordRow)
    (hfil : (st.tables t).filter (fun q => q.id = i) = [row]) :
    getRecordAsync s ⟨t, i⟩ st
      = some (parseRecordFromDb s row t st.edges) := by
  simp only [getRecordAsync]
  rw [hfil]

theorem parse_rels_getD (s : DbSchema) (row : RecordRow) (type : String)
    (edges : List EdgeRow) :
    (parseRecordFromDb s row type edges).relationships.getD []
      = getRelationshipsForRecord s type row.id edges := by
  simp only [parseRecordFromDb]
  exact if_isEmpty_getD _

/-! ## C1 — the set/get round trip -/

/-- **C1**: for every record whose type is declared in the schema (and
whose relationship entries conform to the declared cardinalities, with
duplicate-free names and hasMany arrays — the well-formedness orbit
records carry by construction — and whose `attributes`/`keys` fields
are present), `setRecordAsync` succeeds and `getRecordAsync` on the
record's identity returns a record equal to it in attributes, keys
(absent decoding as the empty map), and relationships after cardinality
reshaping: for each declared relationship name, the read-back value is
the spec reshape of the written entry — a hasMany entry as its target
identities, a hasOne entry as a single identity or an explicit null,
per `specReshape`/`expectedRel`. -/
theorem set_get_round_trip (s : DbSchema) (r : Rec) (st : DBState)
    (m : ModelDef) (rels : List (String × RelDef))
    (hm : s.getModel r.type = some m)
    (hrels : m.relationships = some rels)
    (hrnd : (rels.map Prod.fst).Nodup)
    (hnames : ((r.relationships.getD []).map Prod.fst).Nodup)
    (hconf : ∀ nr ∈ r.relationships.getD [], entryConforms rels nr)
    (hids : ((st.tables r.type).map RecordRow.id).Nodup)
    (hA : r.attributes.isSome = true) (hK : r.keys.isSome = true) :
    ∃ st' rec, setRecordAsync r st = Except.ok st' ∧
      getRecordAsync s ⟨r.type, r.id⟩ st' = some rec ∧
      rec.type = r.type ∧ rec.id = r.id ∧
      rec.attributes.getD [] = r.attributes.getD [] ∧
      rec.keys.getD [] = r.keys.getD [] ∧
      rec.relationships.getD []
        = rels.filterMap (fun nd =>
            (expectedRel (r.relationships.getD []) nd.1).map
              (fun v => (nd.1, v))) := by
  obtain ⟨tbl', hset, row, hfil, hrowid, hrowattrs, hrowkeys⟩ :=
    setRecord_state r st hnames
      (fun nr hnr => WFentry_of_conforms rels nr (hconf nr hnr))
      hids hA hK
  have h0 : ∀ x ∈ st.edges.filter
      (fun e => !(edgeHasSource r.id r.type e)),
      edgeHasSource r.id r.type x = false := fun x hx => by
    simpa using (List.mem_filter.1 hx).2
  refine ⟨_, _, hset, getRecord_of_filter s r.type r.id _ row
    (by simpa using hfil), rfl, hrowid, ?_, ?_, ?_⟩
  · show (decodeField row.attributes).getD [] = _
    rw [hrowattrs, decode_getD]
  · show (decodeField row.keys).getD [] = _
    rw [hrowkeys, decode_getD]
  · rw [parse_rels_getD, hrowid]
    show getRelationshipsForRecord s r.type r.id
      (st.edges.filter (fun e => !(edgeHasSource r.id r.type e))
        ++ relEdges r.id r.type (r.relationships.getD [])) = _
    rw [getRels_on_fresh_edges s r.type r.id m rels
      (r.relationships.getD []) _ hm hrels hrnd hnames hconf h0]

/-- `jupiterRec`'s relationship entries conform to the planet model. -/
theorem jupiter_conforms :
    ∀ nr ∈ jupiterRec.relationships.getD [],
      entryConforms planetRels nr := by
  intro nr hnr
  rcases List.mem_cons.1 hnr with rfl | hnr
  · exact ⟨⟨_, rfl, rfl⟩, by decide⟩
  rcases List.mem_cons.1 hnr with rfl | hnr
  · exact ⟨_, rfl, rfl⟩
  · cases hnr

/-- **C1 witness**: the round trip at `jupiterRec` on the empty store,
with the full read-back projected to concrete values. -/
theorem set_get_round_trip_witness :
    (setRecordAsync jupiterRec emptyState).map (fun st' =>
      (getRecordAsync sampleSchema
          ⟨jupiterRec.type, jupiterRec.id⟩ st').map
        (fun rec => (rec.type, rec.id, rec.attributes.getD [],
          rec.keys.getD [], rec.relationships.getD [])))
      = Except.ok (some ("planet", "jupiter",
          [("name", AttrVal.str "Jupiter")],
          [("remoteId", AttrVal.str "j")],
          [("moons", ReadRelData.many
              [{ type := some "moon", id := some "io" },
               { type := some "moon", id := some "europa" }]),
           ("solarSystem", ReadRelData.one none)])) := by
  obtain ⟨st', rec, hset, hget, ht, hid, hattrs, hkeys, hrels2⟩ :=
    set_get_round_trip sampleSchema jupiterRec emptyState planetModel
      planetRels rfl rfl (by decide) (by decide) jupiter_conforms
      (by decide) rfl rfl
  rw [hset]
  simp only [Except.map]
  rw [hget]
  simp only [Option.map_some']
  rw [ht, hid, hattrs, hkeys, hrels2]
  rfl

/-! ## C7 — explicit null hasOne vs. absent relationship -/

/-- **C7**: storing a record whose declared cardinality-one
relationship `nm` carries `data: null` and reading it back yields a
`relationships[nm]` entry with `data = null`, backed by a stored edge
with NULL `target_id`/`target_table`; a record of the same type that
omits `nm` entirely reads back with no `relationships[nm]` entry at
all — the two are distinguishable. -/
theorem hasone_null_vs_absent (s : DbSchema) (r r2 : Rec)
    (st : DBState) (m : ModelDef) (rels : List (String × RelDef))
    (nm : String) (d : RelDef)
    (hm : s.getModel r.type = some m)
    (hrels : m.relationships = some rels)
    (hrnd : (rels.map Prod.fst).Nodup)
    (hd : rels.lookup nm = some d)
    (hnames : ((r.relationships.getD []).map Prod.fst).Nodup)
    (hconf : ∀ nr ∈ r.relationships.getD [], entryConforms rels nr)
    (hids : ((st.tables r.type).map RecordRow.id).Nodup)
    (hA : r.attributes.isSome = true) (hK : r.keys.isSome = true)
    (hone : (r.relationships.getD []).lookup nm
      = some (some (RelData.one none)))
    (ht2 : r2.type = r.type)
    (hnames2 : ((r2.relationships.getD []).map Prod.fst).Nodup)
    (hconf2 : ∀ nr ∈ r2.relationships.getD [], entryConforms rels nr)
    (hA2 : r2.attributes.isSome = true)
    (hK2 : r2.keys.isSome = true)
    (habs : nm ∉ (r2.relationships.getD []).map Prod.fst) :
    (∃ st' rec, setRecordAsync r st = Except.ok st' ∧
      getRecordAsync s ⟨r.type, r.id⟩ st' = some rec ∧
      (rec.relationships.getD []).lookup nm
        = some (ReadRelData.one none) ∧
      (⟨r.id, r.type, nm, none, none⟩ : EdgeRow) ∈ st'.edges) ∧
    (∃ st2 rec2, setRecordAsync r2 st = Except.ok st2 ∧
      getRecordAsync s ⟨r2.type, r2.id⟩ st2 = some rec2 ∧
      (rec2.relationships.getD []).lookup nm = none) := by
  constructor
  · obtain ⟨tbl', hset, row, hfil, hrowid, -, -⟩ :=
      setRecord_state r st hnames
        (fun nr hnr => WFentry_of_conforms rels nr (hconf nr hnr))
        hids hA hK
    have h0 : ∀ x ∈ st.edges.filter
        (fun e => !(edgeHasSource r.id r.type e)),
        edgeHasSource r.id r.type x = false := fun x hx => by
      simpa using (List.mem_filter.1 hx).2
    refine ⟨_, _, hset, getRecord_of_filter s r.type r.id _ row
      (by simpa using hfil), ?_, ?_⟩
    · rw [parse_rels_getD, hrowid]
      show (getRelationshipsForRecord s r.type r.id
        (st.edges.filter (fun e => !(edgeHasSource r.id r.type e))
          ++ relEdges r.id r.type
              (r.relationships.getD []))).lookup nm = _
      rw [getRels_on_fresh_edges s r.type r.id m rels
          (r.relationships.getD []) _ hm hrels hrnd hnames hconf h0,
        lookup_filterMap_decl rels
          (fun x => expectedRel (r.relationships.getD []) x) nm hrnd
          d hd]
      simp [expectedRel, hone, specReshape]
    · show _ ∈ st.edges.filter
          (fun e => !(edgeHasSource r.id r.type e))
        ++ relEdges r.id r.type (r.relationships.getD [])
      refine List.mem_append_right _ (List.mem_flatMap.2
        ⟨(nm, some (RelData.one none)),
         mem_of_lookup _ _ _ hone, ?_⟩)
      simp [relEntryEdges]
  · have hids2 : ((st.tables r2.type).map RecordRow.id).Nodup := by
      rw [ht2]; exact hids
    have hm2 : s.getModel r2.type = some m := by rw [ht2]; exact hm
    obtain ⟨tbl2, hset2, row2, hfil2, hrowid2, -, -⟩ :=
      setRecord_state r2 st hnames2
        (fun nr hnr => WFentry_of_conforms rels nr (hconf2 nr hnr))
        hids2 hA2 hK2
    have h02 : ∀ x ∈ st.edges.filter
        (fun e => !(edgeHasSource r2.id r2.type e)),
        edgeHasSource r2.id r2.type x = false := fun x hx => by
      simpa using (List.mem_filter.1 hx).2
    refine ⟨_, _, hset2, getRecord_of_filter s r2.type r2.id _ row2
      (by simpa using hfil2), ?_⟩
    rw [parse_rels_getD, hrowid2]
    show (getRelationshipsForRecord s r2.type r2.id
      (st.edges.filter (fun e => !(edgeHasSource r2.id r2.type e))
        ++ relEdges r2.id r2.type
            (r2.relationships.getD []))).lookup nm = _
    rw [getRels_on_fresh_edges s r2.type r2.id m rels
        (r2.relationships.getD []) _ hm2 hrels hrnd hnames2 hconf2 h02,
      lookup_filterMap_decl rels
        (fun x => expectedRel (r2.relationships.getD []) x) nm hrnd
        d hd]
    simp [expectedRel, lookup_eq_none_of_not_mem _ nm habs]

/-- **C7 witness** at `jupiterRec` (solarSystem stored as explicit
null) versus `saturnRec` (no relationships at all). -/
theorem hasone_null_vs_absent_witness :
    (setRecordAsync jupiterRec emptyState).map (fun st' =>
      (getRecordAsync sampleSchema
          ⟨jupiterRec.type, jupiterRec.id⟩ st').map
        (fun rec =>
          (rec.relationships.getD []).lookup "solarSystem"))
      = Except.ok (some (some (ReadRelData.one none))) ∧
    (setRecordAsync saturnRec emptyState).map (fun st2 =>
      (getRecordAsync sampleSchema
          ⟨saturnRec.type, saturnRec.id⟩ st2).map
        (fun rec2 =>
          (rec2.relationships.getD []).lookup "solarSystem"))
      = Except.ok (some none) := by
  obtain ⟨⟨st', rec, hset, hget, hlook, -⟩,
          ⟨st2, rec2, hset2, hget2, hlook2⟩⟩ :=
    hasone_null_vs_absent sampleSchema jupiterRec saturnRec emptyState
      planetModel planetRels "solarSystem"
      { kind := RelKind.hasOne, model := "solarSystem" }
      rfl rfl (by decide) rfl (by decide) jupiter_conforms (by decide)
      rfl rfl rfl rfl (by decide)
      (by intro nr hnr; cases hnr) rfl rfl (by decide)
  constructor
  · rw [hset]
    simp only [Except.map]
    rw [hget]
    simp only [Option.map_some']
    rw [hlook]
  · rw [hset2]
    simp only [Except.map]
    rw [hget2]
    simp only [Option.map_some']
    rw [hlook2]

/-! ## C3 — single-flight open -/

/-- **C3 (code bug)**: three concurrent `openDB()` calls on the closed
database — caller 0 begins the physical open, callers 1 and 2 arrive
while it is in flight and park on `dbReady` in that order.  Because
`EventEmitter.trigger` iterates the live handler array while each
invoked handler `off`-splices itself out, the broadcast skips caller 2:
the interleaving below reaches a state with no enabled step in which
exactly one `SQLite.openDatabase` call was made, one creation pass ran,
callers 0 and 1 resolved with connection 0, but caller 2 is still
parked with its promise unresolved — so not all calls resolve, contrary
to the claim. -/
theorem openDB_waiter_starvation :
    ∃ st : OpenState 3, OpenReachable 3 st ∧
      (∀ st' : OpenState 3, ¬ OpenStep st st') ∧
      st.openCalls = 1 ∧ st.createCalls = 1 ∧ st.db = some 0 ∧
      st.res 0 = some 0 ∧ st.res 1 = some 0 ∧
      st.pc 2 = OpenPC.waiting ∧ st.res 2 = none := by
  have C := Relation.ReflTransGen.tail (Relation.ReflTransGen.tail
    (Relation.ReflTransGen.tail (Relation.ReflTransGen.tail
      (Relation.ReflTransGen.tail (Relation.ReflTransGen.tail
        (Relation.ReflTransGen.refl)
        (OpenStep.beginOpen 0 (initOpen 3) rfl rfl rfl))
      (OpenStep.joinWait 1 _ rfl rfl rfl))
      (OpenStep.joinWait 2 _ rfl rfl rfl))
    (OpenStep.resumeOpen 0 _ rfl))
    (OpenStep.resumeCheck 0 _ rfl))
    (OpenStep.finishOpen 0 _ rfl)
  refine ⟨_, C, ?_, by decide, by decide, by decide, by decide,
    by decide, by decide, by decide⟩
  intro st' h
  cases h with
  | retDb i c _ hpc hdb => exact absurd hpc (by revert i; decide)
  | joinWait i _ hpc hdb hgen => exact absurd hpc (by revert i; decide)
  | beginOpen i _ hpc hdb hgen => exact absurd hpc (by revert i; decide)
  | resumeOpen i _ hpc => exact absurd hpc (by revert i; decide)
  | resumeCheck i _ hpc => exact absurd hpc (by revert i; decide)
  | finishOpen i _ hpc => exact absurd hpc (by revert i; decide)

end OrbitSqlite
